import Mathlib

set_option maxRecDepth 10000

/-!
Verification of the MD_MAXPanel coordinate-mapping and rasterization engine.

The definitions below are a shallow embedding of src/src/MD_MAXPanel.cpp.
Machine integers are modelled as Nat (uint8_t / uint16_t) or Int (int / int16_t),
with explicit reductions modulo 2^16 or 2^8 exactly where the C code can wrap.
Loops whose C counterpart may fail to terminate are given a fuel parameter and
return Option; a `none` result corresponds to fuel exhaustion.
-/

/-- Reduction of a value modulo 2^16, the behaviour of a C `uint16_t` assignment. -/
def wrap16 (n : Nat) : Nat := n % 65536

/-- C `uint16_t` subtraction a - b, wrapping modulo 2^16. -/
def sub16 (a b : Nat) : Nat := (a % 65536 + (65536 - b % 65536)) % 65536

/-- Narrowing of an integer value to C `int16_t`, wrapping modulo 2^16. -/
def toI16 (n : Int) : Int := (n + 32768) % 65536 - 32768

/-- Size of a device row in pixels (from the MD_MAX72XX driver headers: 8x8 devices). -/
def ROW_SIZE : Nat := 8

/-- Size of a device column in pixels (from the MD_MAX72XX driver headers: 8x8 devices). -/
def COL_SIZE : Nat := 8

/-- Modelled from the spec: the external MD_MAX72XX device driver, which is not part
of this repository.  Per the spec it maintains the on/off state of every individual
LED and exposes single-pixel get/set primitives addressed by a row in [0, 7] and a
column in the flat device-chain space [0, 8 * numDevices - 1]; the set primitive
reports success as a boolean. -/
structure MAX72XX where
  numDevices : Nat
  pixels : Nat → Nat → Bool

/-- Modelled from the spec: the driver's single-pixel set.  Succeeds (returns the
updated driver state and true) exactly when the row/column address is in range. -/
def MAX72XX.setPoint (D : MAX72XX) (r c : Nat) (state : Bool) : MAX72XX × Bool :=
  if r ≤ 7 ∧ c ≤ 8 * D.numDevices - 1 then
    ({ D with pixels := fun r' c' => if r' = r ∧ c' = c then state else D.pixels r' c' }, true)
  else (D, false)

/-- Modelled from the spec: the driver's single-pixel get.  Returns the stored LED
state for an in-range address and false otherwise. -/
def MAX72XX.getPoint (D : MAX72XX) (r c : Nat) : Bool :=
  if r ≤ 7 ∧ c ≤ 8 * D.numDevices - 1 then D.pixels r c else false

/-- The panel configuration fields of the MD_MAXPanel class: module-grid width and
height (uint8_t in the source) and the rotation flag. -/
structure MD_MAXPanel where
  xDevices : Nat
  yDevices : Nat
  rotatedDisplay : Bool

/-- MD_MAXPanel::getXMax (MD_MAXPanel.cpp lines 348-358). -/
def MD_MAXPanel.getXMax (p : MD_MAXPanel) : Nat :=
  if p.rotatedDisplay then sub16 (p.yDevices * ROW_SIZE) 1
  else sub16 (p.xDevices * COL_SIZE) 1

/-- MD_MAXPanel::getYMax (MD_MAXPanel.cpp lines 360-370). -/
def MD_MAXPanel.getYMax (p : MD_MAXPanel) : Nat :=
  if p.rotatedDisplay then sub16 (p.xDevices * COL_SIZE) 1
  else sub16 (p.yDevices * ROW_SIZE) 1

/-- MD_MAXPanel::Y2Row (MD_MAXPanel.cpp lines 570-584): convert a panel y coordinate
to the device row handed to the driver. -/
def MD_MAXPanel.Y2Row (p : MD_MAXPanel) (x y : Nat) : Nat :=
  if p.rotatedDisplay then
    let x2 := sub16 p.getXMax x
    ROW_SIZE - x2 % ROW_SIZE - 1
  else
    ROW_SIZE - y % ROW_SIZE - 1

/-- MD_MAXPanel::X2Col (MD_MAXPanel.cpp lines 586-600): convert a panel x coordinate
to the device-chain column handed to the driver.  The arithmetic is carried out in
C `int` (at least 32 bits on the host model) and narrowed to uint16_t on
assignment, hence the single reduction modulo 2^16 of the exact value. -/
def MD_MAXPanel.X2Col (p : MD_MAXPanel) (x y : Nat) : Nat :=
  if p.rotatedDisplay then
    let x2 := sub16 p.getXMax x
    (x2 / ROW_SIZE * (p.xDevices * COL_SIZE) + (p.xDevices * COL_SIZE) - 1
      - y % (p.xDevices * COL_SIZE)) % 65536
  else
    (y / ROW_SIZE * (p.xDevices * COL_SIZE) + (p.xDevices * COL_SIZE) - 1
      - x % (p.xDevices * COL_SIZE)) % 65536

/-- MD_MAXPanel::setPoint (MD_MAXPanel.cpp lines 610-618): bounds check, then
forward the translated address to the driver, returning the driver state and the
boolean result. -/
def MD_MAXPanel.setPoint (p : MD_MAXPanel) (D : MAX72XX) (x y : Nat) (state : Bool) :
    MAX72XX × Bool :=
  if x > p.getXMax ∨ y > p.getYMax then (D, false)
  else D.setPoint (p.Y2Row x y) (p.X2Col x y) state

/-- MD_MAXPanel::getPoint (MD_MAXPanel.cpp lines 602-608). -/
def MD_MAXPanel.getPoint (p : MD_MAXPanel) (D : MAX72XX) (x y : Nat) : Bool :=
  if x > p.getXMax ∨ y > p.getYMax then false
  else D.getPoint (p.Y2Row x y) (p.X2Col x y)

/-- Loop body of MD_MAXPanel::drawHLine (MD_MAXPanel.cpp lines 372-392):
`for (uint16_t i = x1; i <= x2; i++) b &= setPoint(i, y, state);`.
The loop counter is a uint16_t, so the increment wraps modulo 2^16 (and the C loop
never terminates when x2 = 65535); fuel-indexed.  Besides the driver state and the
accumulated boolean the model records the list of coordinates passed to setPoint. -/
def hlineLoop (p : MD_MAXPanel) (y x2 : Nat) (state : Bool) :
    Nat → Nat → MAX72XX → Bool → List (Nat × Nat) → Option (MAX72XX × Bool × List (Nat × Nat))
  | 0, _, _, _, _ => none
  | fuel + 1, i, D, b, tr =>
    if i ≤ x2 then
      let r := p.setPoint D i y state
      hlineLoop p y x2 state fuel (wrap16 (i + 1)) r.1 (b && r.2) (tr ++ [(i, y)])
    else some (D, b, tr)

/-- MD_MAXPanel::drawHLine (MD_MAXPanel.cpp lines 372-392): swap so that x1 ≤ x2,
then set every point (i, y) for i in [x1, x2]. -/
def MD_MAXPanel.drawHLine (p : MD_MAXPanel) (D : MAX72XX) (y x1 x2 : Nat) (state : Bool)
    (fuel : Nat) : Option (MAX72XX × Bool × List (Nat × Nat)) :=
  let pr := if x1 > x2 then (x2, x1) else (x1, x2)
  hlineLoop p y pr.2 state fuel pr.1 D true []

/-- Loop body of MD_MAXPanel::drawVLine (MD_MAXPanel.cpp lines 394-414):
`for (uint8_t i = y1; i <= y2; i++) b &= setPoint(x, i, state);`.
The loop counter is a uint8_t: its initialisation truncates y1 modulo 2^8 and the
increment wraps modulo 2^8 (the C loop never terminates when y2 ≥ 255). -/
def vlineLoop (p : MD_MAXPanel) (x y2 : Nat) (state : Bool) :
    Nat → Nat → MAX72XX → Bool → List (Nat × Nat) → Option (MAX72XX × Bool × List (Nat × Nat))
  | 0, _, _, _, _ => none
  | fuel + 1, i, D, b, tr =>
    if i ≤ y2 then
      let r := p.setPoint D x i state
      vlineLoop p x y2 state fuel ((i + 1) % 256) r.1 (b && r.2) (tr ++ [(x, i)])
    else some (D, b, tr)

/-- MD_MAXPanel::drawVLine (MD_MAXPanel.cpp lines 394-414): the swap of y1 and y2
goes through a uint8_t temporary, so the value moved into y2 is truncated modulo
2^8; the loop counter starts at y1 truncated modulo 2^8. -/
def MD_MAXPanel.drawVLine (p : MD_MAXPanel) (D : MAX72XX) (x y1 y2 : Nat) (state : Bool)
    (fuel : Nat) : Option (MAX72XX × Bool × List (Nat × Nat)) :=
  let pr := if y1 > y2 then (y2, y1 % 256) else (y1, y2)
  vlineLoop p x pr.2 state fuel (pr.1 % 256) D true []

/-- Loop of MD_MAXPanel::drawLine (MD_MAXPanel.cpp lines 416-467), Bresenham:
plot (x1, y1); break when (x1, y1) = (x2, y2); otherwise step x1 and/or y1
according to the error term.  dx, dy, err are int16_t values (narrowed with toI16
on every assignment); x1, y1 are uint16_t so their increments wrap modulo 2^16.
sx is the constant 1 in the source after direction normalisation. -/
def lineLoop (p : MD_MAXPanel) (dx dy sy : Int) (x2 y2 : Nat) (state : Bool) :
    Nat → Nat → Nat → Int → MAX72XX → Bool → List (Nat × Nat) →
      Option (MAX72XX × Bool × List (Nat × Nat))
  | 0, _, _, _, _, _, _ => none
  | fuel + 1, x1, y1, err, D, b, tr =>
    let r := p.setPoint D x1 y1 state
    let D1 := r.1
    let b1 := b && r.2
    let tr1 := tr ++ [(x1, y1)]
    if x1 = x2 ∧ y1 = y2 then some (D1, b1, tr1)
    else
      let e2 := err
      let s1 := if e2 > -dx then (toI16 (err - dy), wrap16 (x1 + 1)) else (err, x1)
      let s2 := if e2 < dy then (toI16 (s1.1 + dx), wrap16 (y1 + (sy % 65536).toNat))
                else (s1.1, y1)
      lineLoop p dx dy sy x2 y2 state fuel s1.2 s2.2 s2.1 D1 b1 tr1

/-- MD_MAXPanel::drawLine after its direction normalisation (MD_MAXPanel.cpp lines
429-441): compute dx, dy, sy and the initial error term, then run the loop. -/
def drawLineFrom (p : MD_MAXPanel) (D : MAX72XX) (x1 y1 x2 y2 : Nat) (state : Bool)
    (fuel : Nat) : Option (MAX72XX × Bool × List (Nat × Nat)) :=
  let dx : Int := toI16 ((x2 : Int) - (x1 : Int))
  let dy0 : Int := toI16 ((y2 : Int) - (y1 : Int))
  let dy : Int := if dy0 < 0 then toI16 (-dy0) else dy0
  let sy : Int := if y1 < y2 then 1 else -1
  let err : Int := toI16 (Int.tdiv (if dx > dy then dx else -dy) 2)
  lineLoop p dx dy sy x2 y2 state fuel x1 y1 err D true []

/-- MD_MAXPanel::drawLine (MD_MAXPanel.cpp lines 416-467): swap the two endpoints
when x1 > x2, then run Bresenham from the lower-x endpoint. -/
def MD_MAXPanel.drawLine (p : MD_MAXPanel) (D : MAX72XX) (x1 y1 x2 y2 : Nat) (state : Bool)
    (fuel : Nat) : Option (MAX72XX × Bool × List (Nat × Nat)) :=
  if x1 > x2 then drawLineFrom p D x2 y2 x1 y1 state fuel
  else drawLineFrom p D x1 y1 x2 y2 state fuel

/-- MD_MAXPanel::drawCirclePoints (MD_MAXPanel.cpp lines 519-534): plot the eight
symmetric points; the uint16_t additions and subtractions wrap modulo 2^16. -/
def MD_MAXPanel.drawCirclePoints (p : MD_MAXPanel) (D : MAX72XX) (xc yc x y : Nat)
    (state : Bool) : MAX72XX × Bool × List (Nat × Nat) :=
  let pts : List (Nat × Nat) :=
    [(wrap16 (xc + x), wrap16 (yc + y)), (sub16 xc x, wrap16 (yc + y)),
     (wrap16 (xc + x), sub16 yc y), (sub16 xc x, sub16 yc y),
     (wrap16 (xc + y), wrap16 (yc + x)), (sub16 xc y, wrap16 (yc + x)),
     (wrap16 (xc + y), sub16 yc x), (sub16 xc y, sub16 yc x)]
  pts.foldl (fun acc q =>
    let r := p.setPoint acc.1 q.1 q.2 state
    (r.1, acc.2.1 && r.2, acc.2.2 ++ [q])) (D, true, [])

/-- Loop of MD_MAXPanel::drawCircle (MD_MAXPanel.cpp lines 536-568): while x < y,
update the decision parameter pk with the old x and y, then plot the eight
symmetric points at the stepped x (and y).  x and y are C ints that stay in
[0, r]; pk is a C int, modelled as an unbounded Int.  The loop always terminates
(y - x strictly decreases); the fuel parameter merely keeps the recursion
structural, and any fuel larger than y - x returns the loop's result. -/
def circleLoop (p : MD_MAXPanel) (xc yc : Nat) (state : Bool) :
    Nat → Nat → Nat → Int → MAX72XX → Bool → List (Nat × Nat) →
      Option (MAX72XX × Bool × List (Nat × Nat))
  | 0, _, _, _, _, _, _ => none
  | fuel + 1, x, y, pk, D, b, tr =>
    if x < y then
      if pk ≤ 0 then
        let r := p.drawCirclePoints D xc yc (x + 1) y state
        circleLoop p xc yc state fuel (x + 1) y (pk + 4 * (x : Int) + 6) r.1 (b && r.2.1)
          (tr ++ r.2.2)
      else
        let r := p.drawCirclePoints D xc yc (x + 1) (y - 1) state
        circleLoop p xc yc state fuel (x + 1) (y - 1) (pk + 4 * ((x : Int) - (y : Int)) + 10)
          r.1 (b && r.2.1) (tr ++ r.2.2)
    else some (D, b, tr)

/-- MD_MAXPanel::drawCircle (MD_MAXPanel.cpp lines 536-568).  Note that the source
initialises its accumulated result `b` to false (`bool b = false;`), unlike every
other drawing primitive. -/
def MD_MAXPanel.drawCircle (p : MD_MAXPanel) (D : MAX72XX) (xc yc r : Nat) (state : Bool)
    (fuel : Nat) : Option (MAX72XX × Bool × List (Nat × Nat)) :=
  let r0 := p.drawCirclePoints D xc yc 0 r state
  circleLoop p xc yc state fuel 0 r (3 - 2 * (r : Int)) r0.1 (false && r0.2.1) r0.2.2

/-- The eight symmetric circle points as the specification words them:
(xc ± x, yc ± y) and (xc ± y, yc ± x). -/
def specEight (xc yc x y : Nat) : List (Nat × Nat) :=
  [(xc + x, yc + y), (xc - x, yc + y), (xc + x, yc - y), (xc - x, yc - y),
   (xc + y, yc + x), (xc - y, yc + x), (xc + y, yc - x), (xc - y, yc - x)]

/-- The midpoint circle algorithm exactly as the specification describes it:
starting decision parameter pk = 3 - 2r, x = 0, y = r; while x < y, if pk ≤ 0
advance x only and update pk += 4x + 6, else advance x, retreat y and update
pk += 4(x - y) + 10; at every step plot the eight symmetric points. -/
def specMidpointLoop (xc yc : Nat) :
    Nat → Nat → Nat → Int → List (Nat × Nat) → Option (List (Nat × Nat))
  | 0, _, _, _, _ => none
  | fuel + 1, x, y, pk, acc =>
    if x < y then
      if pk ≤ 0 then
        specMidpointLoop xc yc fuel (x + 1) y (pk + 4 * (x : Int) + 6)
          (acc ++ specEight xc yc (x + 1) y)
      else
        specMidpointLoop xc yc fuel (x + 1) (y - 1) (pk + 4 * ((x : Int) - (y : Int)) + 10)
          (acc ++ specEight xc yc (x + 1) (y - 1))
    else some acc

/-- The full point list generated by the specification's midpoint circle
algorithm, including the initial plot at (x, y) = (0, r). -/
def specMidpointPoints (xc yc r : Nat) (fuel : Nat) : Option (List (Nat × Nat)) :=
  specMidpointLoop xc yc fuel 0 r (3 - 2 * (r : Int)) (specEight xc yc 0 r)

/-- A driver whose LEDs are all off. -/
def emptyMAX (n : Nat) : MAX72XX := ⟨n, fun _ _ => false⟩

/-- uint16 subtraction agrees with Nat subtraction when no underflow occurs. -/
theorem sub16_eq (a b : Nat) (hb : b ≤ a) (ha : a < 65536) (hb' : b < 65536) :
    sub16 a b = a - b := by
  unfold sub16
  omega

/-- Unrotated, getXMax is xDevices * 8 - 1. -/
theorem getXMax_unrot (p : MD_MAXPanel) (hr : p.rotatedDisplay = false)
    (h1 : 1 ≤ p.xDevices) (h2 : p.xDevices ≤ 255) : p.getXMax = p.xDevices * 8 - 1 := by
  simp [MD_MAXPanel.getXMax, hr, sub16, COL_SIZE]
  omega

/-- Rotated, getXMax is yDevices * 8 - 1. -/
theorem getXMax_rot (p : MD_MAXPanel) (hr : p.rotatedDisplay = true)
    (h1 : 1 ≤ p.yDevices) (h2 : p.yDevices ≤ 255) : p.getXMax = p.yDevices * 8 - 1 := by
  simp [MD_MAXPanel.getXMax, hr, sub16, ROW_SIZE]
  omega

/-- Unrotated, getYMax is yDevices * 8 - 1. -/
theorem getYMax_unrot (p : MD_MAXPanel) (hr : p.rotatedDisplay = false)
    (h1 : 1 ≤ p.yDevices) (h2 : p.yDevices ≤ 255) : p.getYMax = p.yDevices * 8 - 1 := by
  simp [MD_MAXPanel.getYMax, hr, sub16, ROW_SIZE]
  omega

/-- Rotated, getYMax is xDevices * 8 - 1. -/
theorem getYMax_rot (p : MD_MAXPanel) (hr : p.rotatedDisplay = true)
    (h1 : 1 ≤ p.xDevices) (h2 : p.xDevices ≤ 255) : p.getYMax = p.xDevices * 8 - 1 := by
  simp [MD_MAXPanel.getYMax, hr, sub16, COL_SIZE]
  omega

/-- The translated device row is always within [0, 7]. -/
theorem Y2Row_le_7 (p : MD_MAXPanel) (x y : Nat) : p.Y2Row x y ≤ 7 := by
  simp only [MD_MAXPanel.Y2Row, ROW_SIZE]
  split <;> omega

/-- For an in-range coordinate the translated device column is within the
driver's column space [0, 8 * xDevices * yDevices - 1]. -/
theorem X2Col_le (p : MD_MAXPanel) (x y : Nat) (hx1 : 1 ≤ p.xDevices)
    (hx2 : p.xDevices ≤ 255) (hy1 : 1 ≤ p.yDevices) (hy2 : p.yDevices ≤ 255)
    (hx : x ≤ p.getXMax) (hy : y ≤ p.getYMax) :
    p.X2Col x y ≤ 8 * (p.xDevices * p.yDevices) - 1 := by
  rcases hr : p.rotatedDisplay with _ | _
  · have hY : p.getYMax = p.yDevices * 8 - 1 := getYMax_unrot p hr hy1 hy2
    simp only [MD_MAXPanel.X2Col, hr, if_false, ROW_SIZE, COL_SIZE, Bool.false_eq_true]
    refine le_trans (Nat.mod_le _ _) (le_trans (Nat.sub_le _ _) ?_)
    have key : y / 8 * (p.xDevices * 8) + p.xDevices * 8 ≤ 8 * (p.xDevices * p.yDevices) := by
      have h1 : y / 8 * (p.xDevices * 8) + p.xDevices * 8
          = (y / 8 + 1) * (p.xDevices * 8) := by ring
      have h2 : (y / 8 + 1) * (p.xDevices * 8) ≤ p.yDevices * (p.xDevices * 8) :=
        Nat.mul_le_mul_right _ (by omega)
      have h3 : p.yDevices * (p.xDevices * 8) = 8 * (p.xDevices * p.yDevices) := by ring
      omega
    exact Nat.sub_le_sub_right key 1
  · have hX : p.getXMax = p.yDevices * 8 - 1 := getXMax_rot p hr hy1 hy2
    have hfit : p.getXMax < 65536 := by omega
    have hxx : x < 65536 := by omega
    simp only [MD_MAXPanel.X2Col, hr, if_true, ROW_SIZE, COL_SIZE]
    rw [sub16_eq p.getXMax x hx hfit hxx]
    refine le_trans (Nat.mod_le _ _) (le_trans (Nat.sub_le _ _) ?_)
    have key : (p.getXMax - x) / 8 * (p.xDevices * 8) + p.xDevices * 8
        ≤ 8 * (p.xDevices * p.yDevices) := by
      have h1 : (p.getXMax - x) / 8 * (p.xDevices * 8) + p.xDevices * 8
          = ((p.getXMax - x) / 8 + 1) * (p.xDevices * 8) := by ring
      have h2 : ((p.getXMax - x) / 8 + 1) * (p.xDevices * 8) ≤ p.yDevices * (p.xDevices * 8) :=
        Nat.mul_le_mul_right _ (by omega)
      have h3 : p.yDevices * (p.xDevices * 8) = 8 * (p.xDevices * p.yDevices) := by ring
      omega
    exact Nat.sub_le_sub_right key 1

/-- For a panel coordinate inside the valid range, setPoint succeeds and writes
the driver pixel at the translated address. -/
theorem setPoint_inRange (p : MD_MAXPanel) (D : MAX72XX) (x y : Nat) (s : Bool)
    (hdev : D.numDevices = p.xDevices * p.yDevices) (hx1 : 1 ≤ p.xDevices)
    (hx2 : p.xDevices ≤ 255) (hy1 : 1 ≤ p.yDevices) (hy2 : p.yDevices ≤ 255)
    (hx : x ≤ p.getXMax) (hy : y ≤ p.getYMax) :
    p.setPoint D x y s =
      ({ D with pixels := fun r' c' =>
          if r' = p.Y2Row x y ∧ c' = p.X2Col x y then s else D.pixels r' c' }, true) := by
  have h7 := Y2Row_le_7 p x y
  have hc := X2Col_le p x y hx1 hx2 hy1 hy2 hx hy
  simp only [MD_MAXPanel.setPoint]
  rw [if_neg (by omega : ¬(x > p.getXMax ∨ y > p.getYMax))]
  simp only [MAX72XX.setPoint]
  rw [if_pos ⟨h7, by rw [hdev]; exact hc⟩]

/-- MD_MAXPanel::setPoint never changes the driver's device count. -/
theorem setPoint_numDevices (p : MD_MAXPanel) (D : MAX72XX) (x y : Nat) (s : Bool) :
    (p.setPoint D x y s).1.numDevices = D.numDevices := by
  simp only [MD_MAXPanel.setPoint, MAX72XX.setPoint]
  split
  · rfl
  · split <;> rfl

/-- Reading back an in-range pixel straight after writing it returns the
written state. -/
theorem getPoint_setPoint_self (p : MD_MAXPanel) (D : MAX72XX) (x y : Nat) (s : Bool)
    (hdev : D.numDevices = p.xDevices * p.yDevices) (hx1 : 1 ≤ p.xDevices)
    (hx2 : p.xDevices ≤ 255) (hy1 : 1 ≤ p.yDevices) (hy2 : p.yDevices ≤ 255)
    (hx : x ≤ p.getXMax) (hy : y ≤ p.getYMax) :
    p.getPoint (p.setPoint D x y s).1 x y = s := by
  have h7 := Y2Row_le_7 p x y
  have hc := X2Col_le p x y hx1 hx2 hy1 hy2 hx hy
  rw [setPoint_inRange p D x y s hdev hx1 hx2 hy1 hy2 hx hy]
  simp only [MD_MAXPanel.getPoint]
  rw [if_neg (by omega : ¬(x > p.getXMax ∨ y > p.getYMax))]
  simp only [MAX72XX.getPoint]
  rw [if_pos ⟨h7, by rw [hdev]; exact hc⟩]
  simp

/-- A pixel already reading the value s keeps reading s after any further
setPoint carrying the same state s. -/
theorem getPoint_pres (p : MD_MAXPanel) (D : MAX72XX) (x' y' x y : Nat) (s : Bool)
    (h : p.getPoint D x y = s) : p.getPoint (p.setPoint D x' y' s).1 x y = s := by
  simp only [MD_MAXPanel.getPoint, MD_MAXPanel.setPoint, MAX72XX.getPoint,
    MAX72XX.setPoint] at h ⊢
  by_cases h1 : x > p.getXMax ∨ y > p.getYMax
  · rw [if_pos h1] at h ⊢
    exact h
  · rw [if_neg h1] at h ⊢
    by_cases h2 : x' > p.getXMax ∨ y' > p.getYMax
    · rw [if_pos h2]
      exact h
    · rw [if_neg h2]
      by_cases h3 : p.Y2Row x' y' ≤ 7 ∧ p.X2Col x' y' ≤ 8 * D.numDevices - 1
      · rw [if_pos h3]
        simp only
        by_cases h4 : p.Y2Row x y ≤ 7 ∧ p.X2Col x y ≤ 8 * D.numDevices - 1
        · rw [if_pos h4] at h ⊢
          by_cases h5 : p.Y2Row x y = p.Y2Row x' y' ∧ p.X2Col x y = p.X2Col x' y'
          · rw [if_pos h5]
          · rw [if_neg h5]
            exact h
        · rw [if_neg h4] at h ⊢
          exact h
      · rw [if_neg h3]
        exact h

/-- C3: for every out-of-range coordinate (x > getXMax() or y > getYMax()) and
every state, setPoint returns false leaving the driver state untouched, and
getPoint returns false. -/
theorem setPoint_getPoint_out_of_range (p : MD_MAXPanel) (D : MAX72XX) (x y : Nat)
    (s : Bool) (h : x > p.getXMax ∨ y > p.getYMax) :
    p.setPoint D x y s = (D, false) ∧ p.getPoint D x y = false := by
  simp only [MD_MAXPanel.setPoint, MD_MAXPanel.getPoint]
  rw [if_pos h, if_pos h]
  exact ⟨rfl, rfl⟩

/-- Witness for C3 at a concrete out-of-range input on a 4x5-device panel. -/
theorem setPoint_getPoint_out_of_range_witness :
    MD_MAXPanel.setPoint ⟨4, 5, false⟩ (emptyMAX 20) 100 3 true = (emptyMAX 20, false) ∧
    MD_MAXPanel.getPoint ⟨4, 5, false⟩ (emptyMAX 20) 100 3 = false :=
  setPoint_getPoint_out_of_range ⟨4, 5, false⟩ (emptyMAX 20) 100 3 true (by decide)

/-- C5: with at least one device each way, the unrotated maxima are
xDevices * 8 - 1 and yDevices * 8 - 1, and the rotated maxima are the same two
values swapped. -/
theorem getMax_formulas (p : MD_MAXPanel) (hx1 : 1 ≤ p.xDevices) (hx2 : p.xDevices ≤ 255)
    (hy1 : 1 ≤ p.yDevices) (hy2 : p.yDevices ≤ 255) :
    (p.rotatedDisplay = false →
      p.getXMax = p.xDevices * 8 - 1 ∧ p.getYMax = p.yDevices * 8 - 1) ∧
    (p.rotatedDisplay = true →
      p.getXMax = p.yDevices * 8 - 1 ∧ p.getYMax = p.xDevices * 8 - 1) := by
  constructor
  · intro hr
    exact ⟨getXMax_unrot p hr hx1 hx2, getYMax_unrot p hr hy1 hy2⟩
  · intro hr
    exact ⟨getXMax_rot p hr hy1 hy2, getYMax_rot p hr hx1 hx2⟩

/-- Witness for C5 on a concrete 4x5-device panel. -/
theorem getMax_formulas_witness :
    ((MD_MAXPanel.mk 4 5 false).rotatedDisplay = false →
      (MD_MAXPanel.mk 4 5 false).getXMax = 4 * 8 - 1 ∧
      (MD_MAXPanel.mk 4 5 false).getYMax = 5 * 8 - 1) ∧
    ((MD_MAXPanel.mk 4 5 false).rotatedDisplay = true →
      (MD_MAXPanel.mk 4 5 false).getXMax = 5 * 8 - 1 ∧
      (MD_MAXPanel.mk 4 5 false).getYMax = 4 * 8 - 1) :=
  getMax_formulas (MD_MAXPanel.mk 4 5 false) (by decide) (by decide) (by decide) (by decide)

/-- C10: for every in-range coordinate and either rotation, the translated device
address is in range for the driver: Y2Row in [0, 7] and X2Col in
[0, 8 * xDevices * yDevices - 1], so setPoint and getPoint never hand the driver
an out-of-bounds row or column. -/
theorem translate_bounds (p : MD_MAXPanel) (x y : Nat) (hx1 : 1 ≤ p.xDevices)
    (hx2 : p.xDevices ≤ 255) (hy1 : 1 ≤ p.yDevices) (hy2 : p.yDevices ≤ 255)
    (hx : x ≤ p.getXMax) (hy : y ≤ p.getYMax) :
    p.Y2Row x y ≤ 7 ∧ p.X2Col x y ≤ 8 * (p.xDevices * p.yDevices) - 1 :=
  ⟨Y2Row_le_7 p x y, X2Col_le p x y hx1 hx2 hy1 hy2 hx hy⟩

/-- Witness for C10 at a concrete in-range coordinate of a rotated 4x5 panel. -/
theorem translate_bounds_witness :
    (MD_MAXPanel.mk 4 5 true).Y2Row 13 21 ≤ 7 ∧
    (MD_MAXPanel.mk 4 5 true).X2Col 13 21 ≤ 8 * (4 * 5) - 1 :=
  translate_bounds (MD_MAXPanel.mk 4 5 true) 13 21 (by decide) (by decide) (by decide)
    (by decide) (by decide) (by decide)

/-- C4: for every in-range coordinate, setPoint(x, y, true) then getPoint(x, y)
returns true, and a subsequent setPoint(x, y, false) then getPoint(x, y) returns
false. -/
theorem set_get_roundtrip (p : MD_MAXPanel) (D : MAX72XX) (x y : Nat)
    (hdev : D.numDevices = p.xDevices * p.yDevices) (hx1 : 1 ≤ p.xDevices)
    (hx2 : p.xDevices ≤ 255) (hy1 : 1 ≤ p.yDevices) (hy2 : p.yDevices ≤ 255)
    (hx : x ≤ p.getXMax) (hy : y ≤ p.getYMax) :
    p.getPoint (p.setPoint D x y true).1 x y = true ∧
    p.getPoint (p.setPoint (p.setPoint D x y true).1 x y false).1 x y = false := by
  refine ⟨getPoint_setPoint_self p D x y true hdev hx1 hx2 hy1 hy2 hx hy, ?_⟩
  have hdev1 : (p.setPoint D x y true).1.numDevices = p.xDevices * p.yDevices := by
    rw [setPoint_numDevices]
    exact hdev
  exact getPoint_setPoint_self p (p.setPoint D x y true).1 x y false hdev1 hx1 hx2 hy1 hy2 hx hy

/-- Witness for C4 at a concrete in-range coordinate of a 4x5-device panel. -/
theorem set_get_roundtrip_witness :
    MD_MAXPanel.getPoint ⟨4, 5, false⟩
        (MD_MAXPanel.setPoint ⟨4, 5, false⟩ (emptyMAX 20) 12 30 true).1 12 30 = true ∧
    MD_MAXPanel.getPoint ⟨4, 5, false⟩
        (MD_MAXPanel.setPoint ⟨4, 5, false⟩
          (MD_MAXPanel.setPoint ⟨4, 5, false⟩ (emptyMAX 20) 12 30 true).1 12 30 false).1
        12 30 = false :=
  set_get_roundtrip ⟨4, 5, false⟩ (emptyMAX 20) 12 30 (by decide) (by decide) (by decide)
    (by decide) (by decide) (by decide) (by decide)

/-- C1 (code bug): drawCircle(16, 16, 5, true) on a 4x4-device panel plots only
in-range points, so every constituent setPoint succeeds, yet the call returns
false: the source initialises its accumulator to `bool b = false;` so drawCircle
can never return true, contradicting its own documented contract ("\return false
if any point is drawn outside the display, true otherwise"). -/
theorem drawCircle_returns_false_despite_success :
    (MD_MAXPanel.drawCircle ⟨4, 4, false⟩ (emptyMAX 16) 16 16 5 true 100).map
        (fun rr => rr.2.1) = some false ∧
    ∀ rr ∈ MD_MAXPanel.drawCircle ⟨4, 4, false⟩ (emptyMAX 16) 16 16 5 true 100,
      ∀ q ∈ rr.2.2, q.1 ≤ (MD_MAXPanel.mk 4 4 false).getXMax ∧
        q.2 ≤ (MD_MAXPanel.mk 4 4 false).getYMax := by
  decide

/-- C6: drawCircle(16, 16, 5) on a 4x4-device (32x32) panel lights exactly the
point set generated by the specification's midpoint circle algorithm with the
decision parameter initialised to 3 - 2*5 = -7: the plotted trace coincides with
the algorithm's point list, and a pixel of the panel is lit afterwards exactly
when it belongs to that list. -/
theorem drawCircle_matches_spec_midpoint :
    (MD_MAXPanel.drawCircle ⟨4, 4, false⟩ (emptyMAX 16) 16 16 5 true 100).map
        (fun rr => rr.2.2) = specMidpointPoints 16 16 5 100 ∧
    ∀ x < 32, ∀ y < 32,
      (MD_MAXPanel.drawCircle ⟨4, 4, false⟩ (emptyMAX 16) 16 16 5 true 100).map
          (fun rr => MD_MAXPanel.getPoint ⟨4, 4, false⟩ rr.1 x y)
        = (specMidpointPoints 16 16 5 100).map (fun l => decide ((x, y) ∈ l)) := by
  constructor
  · decide
  · decide

/-- setPoint at an out-of-range coordinate fails and leaves the driver untouched;
getPoint there reads false. -/
theorem setPoint_oor (p : MD_MAXPanel) (D : MAX72XX) (x y : Nat)
    (s : Bool) (h : x > p.getXMax ∨ y > p.getYMax) :
    p.setPoint D x y s = (D, false) ∧ p.getPoint D x y = false := by
  simp only [MD_MAXPanel.setPoint, MD_MAXPanel.getPoint]
  rw [if_pos h, if_pos h]
  exact ⟨rfl, rfl⟩

/-- Complete run of the drawHLine loop from column i with n columns left: it
returns in fuel ≥ n + 1 steps, its aggregate flag is the AND of the per-column
in-range checks, every in-range column it visits ends up reading the written
state, pixels already reading the written state keep it, and the visited
columns are exactly [i, i + n). -/
theorem hlineLoop_run (p : MD_MAXPanel) (hx1 : 1 ≤ p.xDevices) (hx2 : p.xDevices ≤ 255)
    (hy1 : 1 ≤ p.yDevices) (hy2 : p.yDevices ≤ 255) (y x2 : Nat) (s : Bool)
    (hxb : x2 ≤ 65534) :
    ∀ n i fuel D b tr, i + n = x2 + 1 → n + 1 ≤ fuel →
      D.numDevices = p.xDevices * p.yDevices →
      ∃ D' b' tr', hlineLoop p y x2 s fuel i D b tr = some (D', b', tr') ∧
        D'.numDevices = p.xDevices * p.yDevices ∧
        (b' = true ↔ (b = true ∧ ∀ j, i ≤ j → j ≤ x2 → j ≤ p.getXMax ∧ y ≤ p.getYMax)) ∧
        (∀ j, i ≤ j → j ≤ x2 → j ≤ p.getXMax → y ≤ p.getYMax → p.getPoint D' j y = s) ∧
        (∀ a c, p.getPoint D a c = s → p.getPoint D' a c = s) ∧
        tr' = tr ++ (List.range' i n).map (fun j => (j, y)) := by
  intro n
  induction n with
  | zero =>
    intro i fuel D b tr hin hfuel hdev
    obtain ⟨f, rfl⟩ : ∃ f, fuel = f + 1 := ⟨fuel - 1, by omega⟩
    refine ⟨D, b, tr, ?_, hdev, ?_, ?_, fun a c h => h, by simp⟩
    · simp only [hlineLoop]
      rw [if_neg (by omega)]
    · constructor
      · intro hb
        exact ⟨hb, fun j h1 h2 => absurd (le_trans h1 h2) (by omega)⟩
      · intro h
        exact h.1
    · intro j h1 h2
      exact absurd (le_trans h1 h2) (by omega)
  | succ n ih =>
    intro i fuel D b tr hin hfuel hdev
    obtain ⟨f, rfl⟩ : ∃ f, fuel = f + 1 := ⟨fuel - 1, by omega⟩
    have hi : i ≤ x2 := by omega
    have hwrap : wrap16 (i + 1) = i + 1 := by
      unfold wrap16
      omega
    by_cases hin1 : i ≤ p.getXMax ∧ y ≤ p.getYMax
    · have hset := setPoint_inRange p D i y s hdev hx1 hx2 hy1 hy2 hin1.1 hin1.2
      have hdev1 : (p.setPoint D i y s).1.numDevices = p.xDevices * p.yDevices := by
        rw [setPoint_numDevices]
        exact hdev
      obtain ⟨D', b', tr', heq, hdev', hiff, hget, hpres, htr⟩ :=
        ih (i + 1) f (p.setPoint D i y s).1 (b && (p.setPoint D i y s).2)
          (tr ++ [(i, y)]) (by omega) (by omega) hdev1
      refine ⟨D', b', tr', ?_, hdev', ?_, ?_, ?_, ?_⟩
      · simp only [hlineLoop]
        rw [if_pos hi, hwrap]
        exact heq
      · rw [hiff, hset]
        simp only [Bool.and_true]
        constructor
        · rintro ⟨hb, hall⟩
          refine ⟨hb, fun j h1 h2 => ?_⟩
          rcases Nat.eq_or_lt_of_le h1 with h | h
          · exact h ▸ hin1
          · exact hall j (by omega) h2
        · rintro ⟨hb, hall⟩
          exact ⟨hb, fun j h1 h2 => hall j (by omega) h2⟩
      · intro j h1 h2 h3 h4
        rcases Nat.eq_or_lt_of_le h1 with h | h
        · subst h
          exact hpres i y (getPoint_setPoint_self p D i y s hdev hx1 hx2 hy1 hy2 h3 h4)
        · exact hget j (by omega) h2 h3 h4
      · intro a c h
        exact hpres a c (getPoint_pres p D i y a c s h)
      · rw [htr, List.range'_succ]
        simp
    · have hoor : i > p.getXMax ∨ y > p.getYMax := by omega
      have hset := (setPoint_oor p D i y s hoor).1
      obtain ⟨D', b', tr', heq, hdev', hiff, hget, hpres, htr⟩ :=
        ih (i + 1) f (p.setPoint D i y s).1 (b && (p.setPoint D i y s).2)
          (tr ++ [(i, y)]) (by omega) (by omega) (by rw [setPoint_numDevices]; exact hdev)
      refine ⟨D', b', tr', ?_, hdev', ?_, ?_, ?_, ?_⟩
      · simp only [hlineLoop]
        rw [if_pos hi, hwrap]
        exact heq
      · rw [hiff, hset]
        simp only [Bool.and_false]
        constructor
        · rintro ⟨hb, _⟩
          exact absurd hb (by simp)
        · rintro ⟨_, hall⟩
          exact absurd (hall i le_rfl hi) hin1
      · intro j h1 h2 h3 h4
        rcases Nat.eq_or_lt_of_le h1 with h | h
        · subst h
          exact absurd ⟨h3, h4⟩ hin1
        · exact hget j (by omega) h2 h3 h4
      · intro a c h
        have hp := hpres a c
        rw [hset] at hp
        exact hp h
      · rw [htr, List.range'_succ]
        simp

/-- C2: drawHLine(y, x1, x2, state) sets every in-range point (j, y) for j from
min(x1,x2) to max(x1,x2) and returns false exactly when some such point is out
of range.  Stated for the runs that terminate: the uint16 loop counter requires
max(x1,x2) ≤ 65534 and enough fuel. -/
theorem drawHLine_sets_and_reports (p : MD_MAXPanel) (D : MAX72XX) (y x1 x2 : Nat)
    (s : Bool) (fuel : Nat) (hx1 : 1 ≤ p.xDevices) (hx2 : p.xDevices ≤ 255)
    (hy1 : 1 ≤ p.yDevices) (hy2 : p.yDevices ≤ 255)
    (hdev : D.numDevices = p.xDevices * p.yDevices) (hmax : max x1 x2 ≤ 65534)
    (hfuel : max x1 x2 - min x1 x2 + 2 ≤ fuel) :
    ∃ D' b' tr', p.drawHLine D y x1 x2 s fuel = some (D', b', tr') ∧
      (b' = false ↔ ∃ j, min x1 x2 ≤ j ∧ j ≤ max x1 x2 ∧
        (p.getXMax < j ∨ p.getYMax < y)) ∧
      (∀ j, min x1 x2 ≤ j → j ≤ max x1 x2 → j ≤ p.getXMax → y ≤ p.getYMax →
        p.getPoint D' j y = s) := by
  have hcall : (if x1 > x2 then (x2, x1) else (x1, x2)) = (min x1 x2, max x1 x2) := by
    split
    · simp only [Prod.mk.injEq]
      omega
    · simp only [Prod.mk.injEq]
      omega
  obtain ⟨D', b', tr', heq, hdev', hiff, hget, hpres, htr⟩ :=
    hlineLoop_run p hx1 hx2 hy1 hy2 y (max x1 x2) s hmax (max x1 x2 + 1 - min x1 x2)
      (min x1 x2) fuel D true [] (by omega) (by omega) hdev
  refine ⟨D', b', tr', ?_, ?_, hget⟩
  · unfold MD_MAXPanel.drawHLine
    rw [hcall]
    exact heq
  · constructor
    · intro hb'
      by_contra hno
      push_neg at hno
      have hall : ∀ j, min x1 x2 ≤ j → j ≤ max x1 x2 → j ≤ p.getXMax ∧ y ≤ p.getYMax := by
        intro j h1 h2
        have := hno j h1 h2
        omega
      have : b' = true := hiff.mpr ⟨rfl, hall⟩
      rw [this] at hb'
      exact Bool.true_eq_false.mp hb' |>.elim
    · rintro ⟨j, hj1, hj2, hj3⟩
      cases hb' : b'
      · rfl
      · have := (hiff.mp hb').2 j hj1 hj2
        omega

/-- Complete run of the drawVLine loop from row i with n rows left (all below
255, so the uint8_t counter does not wrap): it returns in fuel ≥ n + 1 steps,
its aggregate flag is the AND of the per-row in-range checks, every in-range row
it visits ends up reading the written state, pixels already reading the written
state keep it, and the visited rows are exactly [i, i + n). -/
theorem vlineLoop_run (p : MD_MAXPanel) (hx1 : 1 ≤ p.xDevices) (hx2 : p.xDevices ≤ 255)
    (hy1 : 1 ≤ p.yDevices) (hy2 : p.yDevices ≤ 255) (x y2 : Nat) (s : Bool)
    (hyb : y2 ≤ 254) :
    ∀ n i fuel D b tr, i + n = y2 + 1 → n + 1 ≤ fuel →
      D.numDevices = p.xDevices * p.yDevices →
      ∃ D' b' tr', vlineLoop p x y2 s fuel i D b tr = some (D', b', tr') ∧
        D'.numDevices = p.xDevices * p.yDevices ∧
        (b' = true ↔ (b = true ∧ ∀ j, i ≤ j → j ≤ y2 → x ≤ p.getXMax ∧ j ≤ p.getYMax)) ∧
        (∀ j, i ≤ j → j ≤ y2 → x ≤ p.getXMax → j ≤ p.getYMax → p.getPoint D' x j = s) ∧
        (∀ a c, p.getPoint D a c = s → p.getPoint D' a c = s) ∧
        tr' = tr ++ (List.range' i n).map (fun j => (x, j)) := by
  intro n
  induction n with
  | zero =>
    intro i fuel D b tr hin hfuel hdev
    obtain ⟨f, rfl⟩ : ∃ f, fuel = f + 1 := ⟨fuel - 1, by omega⟩
    refine ⟨D, b, tr, ?_, hdev, ?_, ?_, fun a c h => h, by simp⟩
    · simp only [vlineLoop]
      rw [if_neg (by omega)]
    · constructor
      · intro hb
        exact ⟨hb, fun j h1 h2 => absurd (le_trans h1 h2) (by omega)⟩
      · intro h
        exact h.1
    · intro j h1 h2
      exact absurd (le_trans h1 h2) (by omega)
  | succ n ih =>
    intro i fuel D b tr hin hfuel hdev
    obtain ⟨f, rfl⟩ : ∃ f, fuel = f + 1 := ⟨fuel - 1, by omega⟩
    have hi : i ≤ y2 := by omega
    have hwrap : (i + 1) % 256 = i + 1 := by omega
    by_cases hin1 : x ≤ p.getXMax ∧ i ≤ p.getYMax
    · have hset := setPoint_inRange p D x i s hdev hx1 hx2 hy1 hy2 hin1.1 hin1.2
      have hdev1 : (p.setPoint D x i s).1.numDevices = p.xDevices * p.yDevices := by
        rw [setPoint_numDevices]
        exact hdev
      obtain ⟨D', b', tr', heq, hdev', hiff, hget, hpres, htr⟩ :=
        ih (i + 1) f (p.setPoint D x i s).1 (b && (p.setPoint D x i s).2)
          (tr ++ [(x, i)]) (by omega) (by omega) hdev1
      refine ⟨D', b', tr', ?_, hdev', ?_, ?_, ?_, ?_⟩
      · simp only [vlineLoop]
        rw [if_pos hi, hwrap]
        exact heq
      · rw [hiff, hset]
        simp only [Bool.and_true]
        constructor
        · rintro ⟨hb, hall⟩
          refine ⟨hb, fun j h1 h2 => ?_⟩
          rcases Nat.eq_or_lt_of_le h1 with h | h
          · exact h ▸ hin1
          · exact hall j (by omega) h2
        · rintro ⟨hb, hall⟩
          exact ⟨hb, fun j h1 h2 => hall j (by omega) h2⟩
      · intro j h1 h2 h3 h4
        rcases Nat.eq_or_lt_of_le h1 with h | h
        · subst h
          exact hpres x i (getPoint_setPoint_self p D x i s hdev hx1 hx2 hy1 hy2 h3 h4)
        · exact hget j (by omega) h2 h3 h4
      · intro a c h
        exact hpres a c (getPoint_pres p D x i a c s h)
      · rw [htr, List.range'_succ]
        simp
    · have hoor : x > p.getXMax ∨ i > p.getYMax := by omega
      have hset := (setPoint_oor p D x i s hoor).1
      obtain ⟨D', b', tr', heq, hdev', hiff, hget, hpres, htr⟩ :=
        ih (i + 1) f (p.setPoint D x i s).1 (b && (p.setPoint D x i s).2)
          (tr ++ [(x, i)]) (by omega) (by omega) (by rw [setPoint_numDevices]; exact hdev)
      refine ⟨D', b', tr', ?_, hdev', ?_, ?_, ?_, ?_⟩
      · simp only [vlineLoop]
        rw [if_pos hi, hwrap]
        exact heq
      · rw [hiff, hset]
        simp only [Bool.and_false]
        constructor
        · rintro ⟨hb, _⟩
          exact absurd hb (by simp)
        · rintro ⟨_, hall⟩
          exact absurd (hall i le_rfl hi) hin1
      · intro j h1 h2 h3 h4
        rcases Nat.eq_or_lt_of_le h1 with h | h
        · subst h
          exact absurd ⟨h3, h4⟩ hin1
        · exact hget j (by omega) h2 h3 h4
      · intro a c h
        have hp := hpres a c
        rw [hset] at hp
        exact hp h
      · rw [htr, List.range'_succ]
        simp

/-- C8 (amended): for y1, y2 ≤ 254 (so the uint8_t swap temporary and loop
counter are exact), drawVLine(x, y1, y2, state) sets every in-range point (x, j)
for j from min(y1,y2) to max(y1,y2) and returns false exactly when some such
point is out of range. -/
theorem drawVLine_sets_and_reports (p : MD_MAXPanel) (D : MAX72XX) (x y1 y2 : Nat)
    (s : Bool) (fuel : Nat) (hx1 : 1 ≤ p.xDevices) (hx2 : p.xDevices ≤ 255)
    (hy1 : 1 ≤ p.yDevices) (hy2 : p.yDevices ≤ 255)
    (hdev : D.numDevices = p.xDevices * p.yDevices) (hb1 : y1 ≤ 254) (hb2 : y2 ≤ 254)
    (hfuel : max y1 y2 - min y1 y2 + 2 ≤ fuel) :
    ∃ D' b' tr', p.drawVLine D x y1 y2 s fuel = some (D', b', tr') ∧
      (b' = false ↔ ∃ j, min y1 y2 ≤ j ∧ j ≤ max y1 y2 ∧
        (p.getXMax < x ∨ p.getYMax < j)) ∧
      (∀ j, min y1 y2 ≤ j → j ≤ max y1 y2 → x ≤ p.getXMax → j ≤ p.getYMax →
        p.getPoint D' x j = s) := by
  have hcall : (if y1 > y2 then (y2, y1 % 256) else (y1, y2)) = (min y1 y2, max y1 y2) := by
    split
    · simp only [Prod.mk.injEq]
      omega
    · simp only [Prod.mk.injEq]
      omega
  have hmin : min y1 y2 % 256 = min y1 y2 := by omega
  obtain ⟨D', b', tr', heq, hdev', hiff, hget, hpres, htr⟩ :=
    vlineLoop_run p hx1 hx2 hy1 hy2 x (max y1 y2) s (by omega) (max y1 y2 + 1 - min y1 y2)
      (min y1 y2) fuel D true [] (by omega) (by omega) hdev
  refine ⟨D', b', tr', ?_, ?_, hget⟩
  · unfold MD_MAXPanel.drawVLine
    rw [hcall]
    simp only [hmin]
    exact heq
  · constructor
    · intro hb'
      by_contra hno
      push_neg at hno
      have hall : ∀ j, min y1 y2 ≤ j → j ≤ max y1 y2 → x ≤ p.getXMax ∧ j ≤ p.getYMax := by
        intro j h1 h2
        have := hno j h1 h2
        omega
      have : b' = true := hiff.mpr ⟨rfl, hall⟩
      rw [this] at hb'
      exact Bool.true_eq_false.mp hb' |>.elim
    · rintro ⟨j, hj1, hj2, hj3⟩
      cases hb' : b'
      · rfl
      · have := (hiff.mp hb').2 j hj1 hj2
        omega

/-- C9: for y1, y2 ≤ 254 the drawVLine loop terminates and issues exactly
max(y1,y2) - min(y1,y2) + 1 setPoint calls (the recorded trace length). -/
theorem drawVLine_call_count (p : MD_MAXPanel) (D : MAX72XX) (x y1 y2 : Nat)
    (s : Bool) (fuel : Nat) (hx1 : 1 ≤ p.xDevices) (hx2 : p.xDevices ≤ 255)
    (hy1 : 1 ≤ p.yDevices) (hy2 : p.yDevices ≤ 255)
    (hdev : D.numDevices = p.xDevices * p.yDevices) (hb1 : y1 ≤ 254) (hb2 : y2 ≤ 254)
    (hfuel : max y1 y2 - min y1 y2 + 2 ≤ fuel) :
    ∃ D' b' tr', p.drawVLine D x y1 y2 s fuel = some (D', b', tr') ∧
      tr'.length = max y1 y2 - min y1 y2 + 1 := by
  have hcall : (if y1 > y2 then (y2, y1 % 256) else (y1, y2)) = (min y1 y2, max y1 y2) := by
    split
    · simp only [Prod.mk.injEq]
      omega
    · simp only [Prod.mk.injEq]
      omega
  have hmin : min y1 y2 % 256 = min y1 y2 := by omega
  obtain ⟨D', b', tr', heq, hdev', hiff, hget, hpres, htr⟩ :=
    vlineLoop_run p hx1 hx2 hy1 hy2 x (max y1 y2) s (by omega) (max y1 y2 + 1 - min y1 y2)
      (min y1 y2) fuel D true [] (by omega) (by omega) hdev
  refine ⟨D', b', tr', ?_, ?_⟩
  · unfold MD_MAXPanel.drawVLine
    rw [hcall]
    simp only [hmin]
    exact heq
  · rw [htr]
    simp only [List.nil_append, List.length_map, List.length_range']
    omega

/-- Any int16_t value produced by narrowing lies in [-32768, 32767]. -/
theorem toI16_bounds (n : Int) : -32768 ≤ toI16 n ∧ toI16 n ≤ 32767 := by
  unfold toI16
  omega

/-- Narrowing to int16_t is the identity on values already in range. -/
theorem toI16_eq_self (n : Int) (h1 : -32768 ≤ n) (h2 : n ≤ 32767) : toI16 n = n := by
  unfold toI16
  omega

/-- Bounds for the C truncating division of -d by 2. -/
theorem tdiv_neg_two_bounds (d : Int) (h1 : 0 < d) (h2 : d ≤ 32767) :
    -16384 ≤ Int.tdiv (-d) 2 ∧ Int.tdiv (-d) 2 ≤ 0 := by
  rw [Int.neg_tdiv]
  have h3 : Int.tdiv d 2 = d / 2 := Int.tdiv_eq_ediv (by omega) (by omega)
  omega

/-- When dx = 0, dy < 0 and err = 0, the Bresenham loop makes no progress at
all: neither of the two step conditions fires, so the loop spins forever and
every amount of fuel is exhausted (the C program never terminates). -/
theorem lineLoop_stuck (p : MD_MAXPanel) (dy sy : Int) (x y2v : Nat) (s : Bool)
    (hdy : dy < 0) (yv : Nat) (hne : yv ≠ y2v) :
    ∀ fuel D b tr, lineLoop p 0 dy sy x y2v s fuel x yv 0 D b tr = none := by
  intro fuel
  induction fuel with
  | zero =>
    intro D b tr
    rfl
  | succ f ih =>
    intro D b tr
    simp only [lineLoop]
    rw [if_neg (fun h => hne h.2), neg_zero]
    rw [if_neg (by omega : ¬ (0 : Int) > 0)]
    rw [if_neg (by omega : ¬ (0 : Int) < dy)]
    exact ih _ _ _

/-- One non-final iteration of the Bresenham loop in the vertical case dx = 0
with err ≤ 0 < dy: the x coordinate does not move, err is unchanged, the y
coordinate advances by sy. -/
theorem lineLoop_step (p : MD_MAXPanel) (dy sy : Int) (x y2v : Nat) (s : Bool) (f : Nat)
    (yv : Nat) (err : Int) (D : MAX72XX) (b : Bool) (tr : List (Nat × Nat))
    (hne : yv ≠ y2v) (herr1 : -32768 ≤ err) (herr2 : err ≤ 0) (hdy : err < dy) :
    lineLoop p 0 dy sy x y2v s (f + 1) x yv err D b tr
      = lineLoop p 0 dy sy x y2v s f x (wrap16 (yv + (sy % 65536).toNat)) err
          (p.setPoint D x yv s).1 (b && (p.setPoint D x yv s).2) (tr ++ [(x, yv)]) := by
  simp only [lineLoop]
  rw [if_neg (fun h => hne h.2), neg_zero]
  rw [if_neg (by omega : ¬ err > 0)]
  rw [if_pos hdy]
  rw [add_zero, toI16_eq_self err herr1 (by omega)]

/-- Ascending vertical march of the Bresenham loop (dx = 0, sy = 1, err ≤ 0 < dy):
with fuel ≤ n it runs out of fuel, and with fuel ≥ n + 1 it visits exactly the
points (x, yA), ..., (x, yA + n) in that order and returns. -/
theorem lineLoop_up (p : MD_MAXPanel) (x : Nat) (s : Bool) (dy err : Int)
    (hdy : 0 < dy) (herr1 : -32768 ≤ err) (herr2 : err ≤ 0) :
    ∀ n yA fuel D b tr, yA + n ≤ 65535 →
      (fuel ≤ n → lineLoop p 0 dy 1 x (yA + n) s fuel x yA err D b tr = none) ∧
      (n + 1 ≤ fuel → ∃ D' b', lineLoop p 0 dy 1 x (yA + n) s fuel x yA err D b tr
        = some (D', b', tr ++ (List.range' yA (n + 1)).map (fun j => (x, j)))) := by
  intro n
  induction n with
  | zero =>
    intro yA fuel D b tr hle
    constructor
    · intro hf
      obtain rfl : fuel = 0 := by omega
      rfl
    · intro hf
      obtain ⟨f, rfl⟩ : ∃ f, fuel = f + 1 := ⟨fuel - 1, by omega⟩
      refine ⟨(p.setPoint D x yA s).1, b && (p.setPoint D x yA s).2, ?_⟩
      simp only [lineLoop]
      rw [if_pos (⟨by simp, by omega⟩ : _ ∧ _)]
      simp [List.range']
  | succ n ih =>
    intro yA fuel D b tr hle
    have hstep : ∀ f D b tr, lineLoop p 0 dy 1 x (yA + (n + 1)) s (f + 1) x yA err D b tr
        = lineLoop p 0 dy 1 x (yA + (n + 1)) s f x (yA + 1) err
            (p.setPoint D x yA s).1 (b && (p.setPoint D x yA s).2) (tr ++ [(x, yA)]) := by
      intro f D b tr
      rw [lineLoop_step p dy 1 x (yA + (n + 1)) s f yA err D b tr (by omega) herr1 herr2
        (by omega)]
      rw [show (((1 : Int)) % 65536).toNat = 1 from rfl]
      rw [show wrap16 (yA + 1) = yA + 1 from by unfold wrap16; omega]
    have hsh : yA + (n + 1) = (yA + 1) + n := by omega
    constructor
    · intro hf
      cases fuel with
      | zero => rfl
      | succ f =>
        rw [hstep]
        rw [hsh]
        exact (ih (yA + 1) f (p.setPoint D x yA s).1 (b && (p.setPoint D x yA s).2)
          (tr ++ [(x, yA)]) (by omega)).1 (by omega)
    · intro hf
      obtain ⟨f, rfl⟩ : ∃ f, fuel = f + 1 := ⟨fuel - 1, by omega⟩
      rw [hstep, hsh]
      obtain ⟨D', b', heq⟩ := (ih (yA + 1) f (p.setPoint D x yA s).1
        (b && (p.setPoint D x yA s).2) (tr ++ [(x, yA)]) (by omega)).2 (by omega)
      refine ⟨D', b', ?_⟩
      rw [heq]
      simp [List.range'_succ]

/-- Descending vertical march of the Bresenham loop (dx = 0, sy = -1,
err ≤ 0 < dy): with fuel ≤ n it runs out of fuel, and with fuel ≥ n + 1 it
visits exactly the points (x, yB), ..., (x, yB - n) in that order and returns. -/
theorem lineLoop_down (p : MD_MAXPanel) (x : Nat) (s : Bool) (dy err : Int)
    (hdy : 0 < dy) (herr1 : -32768 ≤ err) (herr2 : err ≤ 0) :
    ∀ n yB fuel D b tr, n ≤ yB → yB ≤ 65535 →
      (fuel ≤ n → lineLoop p 0 dy (-1) x (yB - n) s fuel x yB err D b tr = none) ∧
      (n + 1 ≤ fuel → ∃ D' b', lineLoop p 0 dy (-1) x (yB - n) s fuel x yB err D b tr
        = some (D', b', tr ++ (List.range' (yB - n) (n + 1)).reverse.map (fun j => (x, j)))) := by
  intro n
  induction n with
  | zero =>
    intro yB fuel D b tr hnb hle
    constructor
    · intro hf
      obtain rfl : fuel = 0 := by omega
      rfl
    · intro hf
      obtain ⟨f, rfl⟩ : ∃ f, fuel = f + 1 := ⟨fuel - 1, by omega⟩
      refine ⟨(p.setPoint D x yB s).1, b && (p.setPoint D x yB s).2, ?_⟩
      simp only [lineLoop]
      rw [if_pos (⟨by simp, by omega⟩ : _ ∧ _)]
      simp [List.range']
  | succ n ih =>
    intro yB fuel D b tr hnb hle
    have hstep : ∀ f D b tr,
        lineLoop p 0 dy (-1) x (yB - (n + 1)) s (f + 1) x yB err D b tr
          = lineLoop p 0 dy (-1) x (yB - (n + 1)) s f x (yB - 1) err
              (p.setPoint D x yB s).1 (b && (p.setPoint D x yB s).2) (tr ++ [(x, yB)]) := by
      intro f D b tr
      rw [lineLoop_step p dy (-1) x (yB - (n + 1)) s f yB err D b tr (by omega) herr1 herr2
        (by omega)]
      rw [show (((-1 : Int)) % 65536).toNat = 65535 from rfl]
      rw [show wrap16 (yB + 65535) = yB - 1 from by unfold wrap16; omega]
    have hsh : yB - (n + 1) = (yB - 1) - n := by omega
    constructor
    · intro hf
      cases fuel with
      | zero => rfl
      | succ f =>
        rw [hstep]
        rw [hsh]
        exact (ih (yB - 1) f (p.setPoint D x yB s).1 (b && (p.setPoint D x yB s).2)
          (tr ++ [(x, yB)]) (by omega) (by omega)).1 (by omega)
    · intro hf
      obtain ⟨f, rfl⟩ : ∃ f, fuel = f + 1 := ⟨fuel - 1, by omega⟩
      rw [hstep, hsh]
      obtain ⟨D', b', heq⟩ := (ih (yB - 1) f (p.setPoint D x yB s).1
        (b && (p.setPoint D x yB s).2) (tr ++ [(x, yB)]) (by omega) (by omega)).2 (by omega)
      refine ⟨D', b', ?_⟩
      rw [heq]
      have hcat : List.range' ((yB - 1) - n) (n + 1 + 1) =
          List.range' ((yB - 1) - n) (n + 1) ++ [yB] := by
        rw [List.range'_1_concat, show (yB - 1) - n + (n + 1) = yB from by omega]
      rw [hcat]
      simp [List.reverse_append]

/-- Vertical lines (x1 = x2): the Bresenham core visits the same set of points
in either direction of travel, and both directions consume the same fuel. -/
theorem drawLineFrom_vert_symm (p : MD_MAXPanel) (D : MAX72XX) (x yA yB : Nat) (s : Bool)
    (fuel : Nat) (hA : yA < yB) (hB : yB ≤ 65535) :
    Option.map (fun rr => rr.2.2.toFinset) (drawLineFrom p D x yA x yB s fuel)
      = Option.map (fun rr => rr.2.2.toFinset) (drawLineFrom p D x yB x yA s fuel) := by
  have h0 : toI16 ((x : Int) - (x : Int)) = 0 := by
    rw [sub_self]
    exact toI16_eq_self 0 (by omega) (by omega)
  simp only [drawLineFrom, h0]
  rw [if_pos hA, if_neg (by omega : ¬ yB < yA)]
  have hdy : (if toI16 ((yA : Int) - (yB : Int)) < 0 then toI16 (-toI16 ((yA : Int) - (yB : Int)))
        else toI16 ((yA : Int) - (yB : Int)))
      = (if toI16 ((yB : Int) - (yA : Int)) < 0 then toI16 (-toI16 ((yB : Int) - (yA : Int)))
        else toI16 ((yB : Int) - (yA : Int))) := by
    unfold toI16
    split_ifs <;> omega
  rw [hdy]
  generalize hdd : (if toI16 ((yB : Int) - (yA : Int)) < 0
      then toI16 (-toI16 ((yB : Int) - (yA : Int)))
      else toI16 ((yB : Int) - (yA : Int))) = dy
  have hsgn : dy < 0 ∨ (0 < dy ∧ dy ≤ 32767) := by
    rw [← hdd]
    unfold toI16
    split_ifs <;> omega
  rcases hsgn with hneg | ⟨hpos, hle⟩
  · rw [if_pos (by omega : (0 : Int) > dy)]
    rw [show Int.tdiv 0 2 = 0 from rfl]
    rw [toI16_eq_self 0 (by omega) (by omega)]
    rw [lineLoop_stuck p dy 1 x yB s hneg yA (by omega) fuel D true []]
    rw [lineLoop_stuck p dy (-1) x yA s hneg yB (by omega) fuel D true []]
  · rw [if_neg (by omega : ¬ (0 : Int) > dy)]
    obtain ⟨hb1, hb2⟩ := tdiv_neg_two_bounds dy hpos hle
    rw [toI16_eq_self (Int.tdiv (-dy) 2) (by omega) (by omega)]
    have hup := lineLoop_up p x s dy (Int.tdiv (-dy) 2) hpos (by omega) (by omega)
      (yB - yA) yA fuel D true [] (by omega)
    rw [show yA + (yB - yA) = yB from by omega] at hup
    have hdn := lineLoop_down p x s dy (Int.tdiv (-dy) 2) hpos (by omega) (by omega)
      (yB - yA) yB fuel D true [] (by omega) hB
    rw [show yB - (yB - yA) = yA from by omega] at hdn
    rcases le_or_lt fuel (yB - yA) with hfu | hfu
    · rw [hup.1 hfu, hdn.1 hfu]
    · obtain ⟨D1, b1, he1⟩ := hup.2 (by omega)
      obtain ⟨D2, b2, he2⟩ := hdn.2 (by omega)
      rw [he1, he2]
      simp only [Option.map_some', List.nil_append]
      congr 1
      rw [List.map_reverse]
      exact List.toFinset_reverse.symm

/-- C7: drawLine(x1, y1, x2, y2, state) and drawLine(x2, y2, x1, y1, state)
issue setPoint for exactly the same set of points (hence write the same pixels),
for any uint16 endpoints and any fuel: when x1 and x2 differ the swap
normalisation makes the two runs identical, and a vertical line visits the same
set marching up or down. -/
theorem drawLine_endpoint_symmetric (p : MD_MAXPanel) (D : MAX72XX) (x1 y1 x2 y2 : Nat)
    (s : Bool) (fuel : Nat) (h2 : y1 ≤ 65535) (h4 : y2 ≤ 65535) :
    Option.map (fun rr => rr.2.2.toFinset) (p.drawLine D x1 y1 x2 y2 s fuel)
      = Option.map (fun rr => rr.2.2.toFinset) (p.drawLine D x2 y2 x1 y1 s fuel) := by
  unfold MD_MAXPanel.drawLine
  rcases Nat.lt_trichotomy x1 x2 with h | h | h
  · rw [if_neg (by omega), if_pos (by omega)]
  · subst h
    rw [if_neg (by omega), if_neg (by omega)]
    rcases Nat.lt_trichotomy y1 y2 with hv | hv | hv
    · exact drawLineFrom_vert_symm p D x1 y1 y2 s fuel hv h4
    · subst hv
      rfl
    · exact (drawLineFrom_vert_symm p D x1 y2 y1 s fuel hv h2).symm
  · rw [if_pos (by omega), if_neg (by omega)]

/-- Witness for C7 at concrete endpoints. -/
theorem drawLine_endpoint_symmetric_witness :
    Option.map (fun rr => rr.2.2.toFinset)
        (MD_MAXPanel.drawLine ⟨4, 4, false⟩ (emptyMAX 16) 1 2 7 5 true 20)
      = Option.map (fun rr => rr.2.2.toFinset)
        (MD_MAXPanel.drawLine ⟨4, 4, false⟩ (emptyMAX 16) 7 5 1 2 true 20) :=
  drawLine_endpoint_symmetric ⟨4, 4, false⟩ (emptyMAX 16) 1 2 7 5 true 20 (by omega) (by omega)

/-- Witness for C2: the spec's end-to-end example, a 4x5-device panel drawing
drawHLine(17, 0, 39), instantiating the general theorem, plus the concrete
evaluation: the call returns false yet pixels (0,17)..(31,17) are all lit. -/
theorem drawHLine_sets_and_reports_witness :
    (∃ D' b' tr', MD_MAXPanel.drawHLine ⟨4, 5, false⟩ (emptyMAX 20) 17 0 39 true 100
        = some (D', b', tr') ∧
      (b' = false ↔ ∃ j, min 0 39 ≤ j ∧ j ≤ max 0 39 ∧
        ((MD_MAXPanel.mk 4 5 false).getXMax < j ∨ (MD_MAXPanel.mk 4 5 false).getYMax < 17)) ∧
      (∀ j, min 0 39 ≤ j → j ≤ max 0 39 → j ≤ (MD_MAXPanel.mk 4 5 false).getXMax →
        17 ≤ (MD_MAXPanel.mk 4 5 false).getYMax →
        MD_MAXPanel.getPoint ⟨4, 5, false⟩ D' j 17 = true)) ∧
    (MD_MAXPanel.drawHLine ⟨4, 5, false⟩ (emptyMAX 20) 17 0 39 true 100).map
      (fun rr => rr.2.1) = some false ∧
    (MD_MAXPanel.drawHLine ⟨4, 5, false⟩ (emptyMAX 20) 17 0 39 true 100).map
      (fun rr => (List.range 32).all (fun i => MD_MAXPanel.getPoint ⟨4, 5, false⟩ rr.1 i 17))
      = some true :=
  ⟨drawHLine_sets_and_reports ⟨4, 5, false⟩ (emptyMAX 20) 17 0 39 true 100 (by decide)
    (by decide) (by decide) (by decide) (by decide) (by decide) (by decide),
    by decide, by decide⟩

/-- Counterexample to C8 as stated: on a 1x40-device panel (getYMax() = 319
unrotated), drawVLine(0, 300, 10, true) terminates and leaves the in-range point
(0, 100) unlit even though 100 lies in [min(300,10), max(300,10)] = [10, 300]:
the uint8_t swap temporary truncates 300 to 44, so only rows 10..44 are set. -/
theorem drawVLine_truncation_counterexample :
    (MD_MAXPanel.drawVLine ⟨1, 40, false⟩ (emptyMAX 40) 0 300 10 true 1000).isSome = true ∧
    (10 : Nat) ≤ 100 ∧ (100 : Nat) ≤ 300 ∧
    100 ≤ (MD_MAXPanel.mk 1 40 false).getYMax ∧
    (0 : Nat) ≤ (MD_MAXPanel.mk 1 40 false).getXMax ∧
    (MD_MAXPanel.drawVLine ⟨1, 40, false⟩ (emptyMAX 40) 0 300 10 true 1000).map
      (fun rr => MD_MAXPanel.getPoint ⟨1, 40, false⟩ rr.1 0 100) = some false := by
  decide

/-- Witness for the amended C8 at concrete inputs on a 4x5-device panel:
drawVLine(5, 50, 30) with 30..39 in range and 40..50 out of range. -/
theorem drawVLine_sets_and_reports_witness :
    ∃ D' b' tr', MD_MAXPanel.drawVLine ⟨4, 5, false⟩ (emptyMAX 20) 5 50 30 true 100
        = some (D', b', tr') ∧
      (b' = false ↔ ∃ j, min 50 30 ≤ j ∧ j ≤ max 50 30 ∧
        ((MD_MAXPanel.mk 4 5 false).getXMax < 5 ∨ (MD_MAXPanel.mk 4 5 false).getYMax < j)) ∧
      (∀ j, min 50 30 ≤ j → j ≤ max 50 30 → 5 ≤ (MD_MAXPanel.mk 4 5 false).getXMax →
        j ≤ (MD_MAXPanel.mk 4 5 false).getYMax →
        MD_MAXPanel.getPoint ⟨4, 5, false⟩ D' 5 j = true) :=
  drawVLine_sets_and_reports ⟨4, 5, false⟩ (emptyMAX 20) 5 50 30 true 100 (by decide)
    (by decide) (by decide) (by decide) (by decide) (by decide) (by decide) (by decide)

/-- Witness for C9 at concrete inputs: drawVLine(3, 10, 44) issues exactly
44 - 10 + 1 = 35 setPoint calls. -/
theorem drawVLine_call_count_witness :
    ∃ D' b' tr', MD_MAXPanel.drawVLine ⟨4, 5, false⟩ (emptyMAX 20) 3 10 44 true 100
        = some (D', b', tr') ∧ tr'.length = max 10 44 - min 10 44 + 1 :=
  drawVLine_call_count ⟨4, 5, false⟩ (emptyMAX 20) 3 10 44 true 100 (by decide) (by decide)
    (by decide) (by decide) (by decide) (by decide) (by decide) (by decide)
